import Mathlib

/-!
Shallow embedding of the live-transcription core of the Midnight-Investigator
backend: the hypothesis-consensus buffer and the online ASR processor from
src/backend/utils/online_asr.py, and the streaming websocket session loop from
src/backend/main.py.

Modelling conventions: Python floats (timestamps, audio samples) are rationals,
Python lists are Lean lists, Python strings are Lean strings.  The external ASR
engine is an oracle: each process_iter call is parameterised by the token list
that asr.transcribe followed by _extract_words would produce for the current
window, since the engine is an external collaborator.
-/

/-- A timestamped word, the Python triple (a, b, t) = (start, end, text) used
throughout online_asr.py. -/
structure Token where
  beg : ℚ
  en : ℚ
  text : String
deriving DecidableEq

instance : Inhabited Token := ⟨⟨0, 0, ""⟩⟩

/-- Python " ".join(l) over a list of strings. -/
def spaceJoin : List String → String
  | [] => ""
  | [s] => s
  | s :: s2 :: r => s ++ " " ++ spaceJoin (s2 :: r)

/-- State of HypothesisBuffer (online_asr.py lines 12-56): the committed
mirror used for pruning, the previous hypothesis (comparison baseline), the
freshly inserted hypothesis, and the last committed time/word. -/
structure HypothesisBuffer where
  commited_in_buffer : List Token
  buffer : List Token
  new : List Token
  last_commited_time : ℚ
  last_commited_word : Option String
deriving DecidableEq

/-- Shift a token's timestamps by an offset, as in HypothesisBuffer.insert:
(a + offset, b + offset, t). -/
def shiftTok (offset : ℚ) (t : Token) : Token :=
  ⟨t.beg + offset, t.en + offset, t.text⟩

/-- HypothesisBuffer.insert (lines 23-27): offset every token and store the
result as the new hypothesis, replacing any prior unconsumed one. -/
def HypothesisBuffer.insert (hb : HypothesisBuffer) (new : List Token)
    (offset : ℚ) : HypothesisBuffer :=
  { hb with new := new.map (shiftTok offset) }

/-- The while loop of HypothesisBuffer.flush (lines 32-45): scan new against
buffer from the front, committing while the texts agree; returns the commit
list together with the remaining (unconsumed) part of new. -/
def flushLoop : List Token → List Token → List Token × List Token
  | [], _buf => ([], [])
  | n :: ns, [] => ([], n :: ns)
  | n :: ns, b :: bs =>
    if n.text = b.text then
      let r := flushLoop ns bs
      (n :: r.1, r.2)
    else
      ([], n :: ns)

/-- HypothesisBuffer.flush (lines 29-49): commit the agreeing front run,
replace buffer by the remainder of new, clear new, extend the committed
mirror, and record the last committed word/time. -/
def HypothesisBuffer.flush (hb : HypothesisBuffer) :
    HypothesisBuffer × List Token :=
  let r := flushLoop hb.new hb.buffer
  ({ commited_in_buffer := hb.commited_in_buffer ++ r.1,
     buffer := r.2,
     new := [],
     last_commited_time :=
       match r.1.getLast? with
       | some t => t.en
       | none => hb.last_commited_time,
     last_commited_word :=
       match r.1.getLast? with
       | some t => some t.text
       | none => hb.last_commited_word },
   r.1)

/-- The while loop of HypothesisBuffer.pop_commited (lines 51-53): pop from
the front while the front entry's end time is at or before the given time. -/
def popLoop : List Token → ℚ → List Token
  | [], _ => []
  | t :: ts, time => if t.en ≤ time then popLoop ts time else t :: ts

/-- HypothesisBuffer.pop_commited (lines 51-53). -/
def HypothesisBuffer.pop_commited (hb : HypothesisBuffer) (time : ℚ) :
    HypothesisBuffer :=
  { hb with commited_in_buffer := popLoop hb.commited_in_buffer time }

/-- HypothesisBuffer.complete (lines 55-56): the current provisional text. -/
def HypothesisBuffer.complete (hb : HypothesisBuffer) : List Token :=
  hb.buffer

/-- Python int() on a rational: truncation toward zero. -/
def pyInt (q : ℚ) : ℤ :=
  if 0 ≤ q then ⌊q⌋ else ⌈q⌉

/-- State of OnlineASRProcessor (online_asr.py lines 59-211).  The audio
window is the list of normalised float samples; SAMPLING_RATE is 16000. -/
structure OnlineASRProcessor where
  audio_buffer : List ℚ
  transcript_buffer : HypothesisBuffer
  buffer_time_offset : ℚ
  commited : List Token
  buffer_trimming_sec : ℚ
deriving DecidableEq

/-- The processor right after OnlineASRProcessor.init() with offset None and
buffer_trimming_sec=15 as passed by main.py: empty window, fresh hypothesis
buffer, zero offset, empty committed history. -/
def mkProcessor : OnlineASRProcessor :=
  { audio_buffer := [],
    transcript_buffer := ⟨[], [], [], 0, none⟩,
    buffer_time_offset := 0,
    commited := [],
    buffer_trimming_sec := 15 }

/-- OnlineASRProcessor.insert_audio_chunk (lines 85-87). -/
def insert_audio_chunk (st : OnlineASRProcessor) (audio : List ℚ) :
    OnlineASRProcessor :=
  { st with audio_buffer := st.audio_buffer ++ audio }

/-- The backward walk of _get_prompt (lines 138-140): k starts at the last
index and decreases while k > 0 and commited[k].beg > offset.  The fuel
argument is the current value of k. -/
def walkBack (c : List Token) (offset : ℚ) : ℕ → ℕ
  | 0 => 0
  | Nat.succ k =>
    if offset < (c.getD (k + 1) default).beg then walkBack c offset k
    else k + 1

/-- The final truncation of _get_prompt (lines 144-146): keep only the last
200 characters when longer. -/
def truncTail200 (p : String) : String :=
  if 200 < p.length then String.mk (p.data.drop (p.data.length - 200)) else p

/-- OnlineASRProcessor._get_prompt (lines 132-146): walk back to the last
committed entry starting at or before the offset, join the texts of the
slice commited[max(0,k-10):k+1], and keep the last 200 characters. -/
def get_prompt (st : OnlineASRProcessor) : String :=
  if st.commited = [] then ""
  else
    let k := walkBack st.commited st.buffer_time_offset (st.commited.length - 1)
    let p := spaceJoin
      (((st.commited.drop (k - 10)).take (k + 1 - (k - 10))).map Token.text)
    truncTail200 p

/-- OnlineASRProcessor._to_flush (lines 197-211): concatenate a run of
timestamped words into (first start, last end, joined text), with
(None, None, "") for the empty run. -/
def to_flush (sents : List Token) : Option ℚ × Option ℚ × String :=
  match sents with
  | [] => (none, none, "")
  | s :: rest =>
    (some s.beg, some ((s :: rest).getLast (List.cons_ne_nil s rest)).en,
     spaceJoin ((s :: rest).map Token.text))

/-- OnlineASRProcessor._trim_buffer (lines 180-195): no-op when nothing has
been committed; otherwise drop all but the last 5 seconds of samples, advance
the offset by the dropped duration and prune the hypothesis buffer's
committed mirror at the new offset. -/
def trim_buffer (st : OnlineASRProcessor) : OnlineASRProcessor :=
  if st.commited = [] then st
  else
    let keep_duration : ℚ := 5
    let trim_time : ℚ := (st.audio_buffer.length : ℚ) / 16000 - keep_duration
    if 0 < trim_time then
      let cut_samples : ℕ := (pyInt (trim_time * 16000)).toNat
      { st with
        audio_buffer := st.audio_buffer.drop cut_samples,
        buffer_time_offset := st.buffer_time_offset + trim_time,
        transcript_buffer :=
          st.transcript_buffer.pop_commited (st.buffer_time_offset + trim_time) }
    else st

/-- OnlineASRProcessor.process_iter (lines 89-123), parameterised by the token
list tsw that asr.transcribe followed by _extract_words yields for the current
window.  Returns the new state, the _to_flush of the newly committed tokens,
and a flag recording whether the ASR engine was invoked on this call. -/
def process_iter (st : OnlineASRProcessor) (tsw : List Token) :
    OnlineASRProcessor × (Option ℚ × Option ℚ × String) × Bool :=
  if st.audio_buffer.length = 0 then (st, (none, none, ""), false)
  else
    let _prompt := get_prompt st
    let tb := st.transcript_buffer.insert tsw st.buffer_time_offset
    let fr := tb.flush
    let st1 := { st with transcript_buffer := fr.1,
                         commited := st.commited ++ fr.2 }
    let st2 :=
      if st1.buffer_trimming_sec < (st1.audio_buffer.length : ℚ) / 16000 then
        trim_buffer st1
      else st1
    (st2, to_flush fr.2, true)

/-- OnlineASRProcessor.finish (lines 125-130): flush the provisional text. -/
def finish (st : OnlineASRProcessor) : Option ℚ × Option ℚ × String :=
  to_flush st.transcript_buffer.buffer

/-- One observable operation on the processor, as driven by the session
loop in main.py: appending an audio chunk, or one process_iter call with the
token list the engine produced. -/
inductive ProcOp where
  | chunk (c : List ℚ)
  | hyp (tsw : List Token)

/-- Apply one operation to the processor state. -/
def applyOp (st : OnlineASRProcessor) : ProcOp → OnlineASRProcessor
  | ProcOp.chunk c => insert_audio_chunk st c
  | ProcOp.hyp tsw => (process_iter st tsw).1

/-- Run a list of operations from a given processor state. -/
def runProc : OnlineASRProcessor → List ProcOp → OnlineASRProcessor
  | st, [] => st
  | st, op :: r => runProc (applyOp st op) r

/-- Single step of the processor, as a relation: either an audio append or a
process_iter call. -/
inductive ProcStep : OnlineASRProcessor → OnlineASRProcessor → Prop
  | insertChunk (st : OnlineASRProcessor) (c : List ℚ) :
      ProcStep st (insert_audio_chunk st c)
  | processStep (st : OnlineASRProcessor) (tsw : List Token) :
      ProcStep st (process_iter st tsw).1

/-- Python truthiness of an optional float: None and 0.0 are falsy.  Used by
the message builder's `if beg_ts` check in main.py line 431. -/
def pyTruthy (q : Option ℚ) : Bool :=
  match q with
  | none => false
  | some x => decide (x ≠ 0)

/-- Characters stripped by Python str.strip() (ASCII whitespace). -/
def isPySpace (c : Char) : Bool :=
  c = ' ' || c = '\t' || c = '\n' || c = '\r' || c = '\x0b' || c = '\x0c'

/-- Python str.strip() on the underlying character list. -/
def stripData (l : List Char) : List Char :=
  ((l.dropWhile isPySpace).reverse.dropWhile isPySpace).reverse

/-- Python str.strip(), used by the session loop (main.py line 424). -/
def pyStrip (s : String) : String :=
  String.mk (stripData s.data)

/-- Outbound JSON message of the live-transcription websocket (main.py lines
427-433 and 478-484).  The per-iteration messages carry no final key, which is
recorded here as final := false. -/
structure OutMessage where
  transcript : String
  buffer : String
  full_text : String
  timestamp : Option (ℚ × ℚ)
  final : Bool
deriving DecidableEq

instance : Inhabited OutMessage := ⟨⟨"", "", "", none, false⟩⟩

/-- Per-connection streaming state of live_transcribe_endpoint: the online
processor and the accumulated full transcription string. -/
structure LiveSession where
  online : OnlineASRProcessor
  full_transcription : String
deriving DecidableEq

/-- Session state right after the websocket is accepted and the processor is
created (main.py lines 368-381). -/
def mkSession : LiveSession :=
  { online := mkProcessor, full_transcription := "" }

/-- One full-chunk iteration of ffmpeg_stdout_reader (main.py lines 403-433):
insert the decoded chunk, run process_iter with the engine's tokens, read the
provisional buffer text, update the running transcription, and build the
outbound message. -/
def sessionStep (s : LiveSession) (chunk : List ℚ) (tsw : List Token) :
    LiveSession × OutMessage :=
  let online1 := insert_audio_chunk s.online chunk
  let pr := process_iter online1 tsw
  let online2 := pr.1
  let beg_ts := pr.2.1.1
  let end_ts := pr.2.1.2.1
  let transcript := pr.2.1.2.2
  let buffer_text := (to_flush online2.transcript_buffer.buffer).2.2
  let full :=
    if transcript = "" then s.full_transcription
    else pyStrip (s.full_transcription ++ " " ++ transcript)
  ({ online := online2, full_transcription := full },
   { transcript := transcript,
     buffer := buffer_text,
     full_text := full,
     timestamp :=
       if pyTruthy beg_ts then some (beg_ts.getD 0, end_ts.getD 0) else none,
     final := false })

/-- Run the production loop over a list of (decoded chunk, engine tokens)
iterations, collecting the outbound messages in order. -/
def runSession : LiveSession → List (List ℚ × List Token) →
    LiveSession × List OutMessage
  | s, [] => (s, [])
  | s, (c, t) :: rest =>
    let st := sessionStep s c t
    let r := runSession st.1 rest
    (r.1, st.2 :: r.2)

/-- The terminal message sent during teardown (main.py lines 474-486): only
sent when finish() yields non-empty text, with full_text set to that text. -/
def finalMessage (s : LiveSession) : Option OutMessage :=
  let f := finish s.online
  if f.2.2 = "" then none
  else
    some { transcript := f.2.2,
           buffer := "",
           full_text := f.2.2,
           timestamp := some (f.1.getD 0, f.2.1.getD 0),
           final := true }

/-- The adaptive read size of ffmpeg_stdout_reader (main.py lines 387-391):
elapsed is first clamped below to 0.1 s, then
read_size = min(32000 * int(elapsed) + 4096, 64000). -/
def read_size (d : ℚ) : ℤ :=
  min (32000 * pyInt (max (1 / 10) d) + 4096) 64000

/-- Modelled from the claim's words (C6): read size
clamp(32000 * elapsed_seconds + 4096, 4096, 64000), without truncating the
elapsed time to an integer. -/
def claimedReadSize (d : ℚ) : ℚ :=
  max 4096 (min (32000 * d + 4096) 64000)

/-- Modelled from the claim's words (C7): walk back as the code does, but join
only the at most 10 entries strictly preceding the found entry, excluding the
found entry itself, then keep the last 200 characters. -/
def claimedPrompt (c : List Token) (offset : ℚ) : String :=
  let k := walkBack c offset (c.length - 1)
  truncTail200 (spaceJoin (((c.drop (k - 10)).take (k - (k - 10))).map Token.text))

/-- Token texts as committed to the transcript: non-empty with no leading or
trailing whitespace, so that the session's strip-and-append accumulation is a
plain space-join. -/
def cleanL (l : List Char) : Bool :=
  match l with
  | [] => false
  | c :: rest => !isPySpace c && !isPySpace (rest.getLastD c)

/-- Boolean form of the clean-text condition on a string. -/
def cleanB (s : String) : Bool :=
  cleanL s.data

/-- Pointwise ordering on tokens: both timestamps non-decreasing. -/
def monoTok (a b : Token) : Prop :=
  a.beg ≤ b.beg ∧ a.en ≤ b.en

/-- Boolean check that adjacent tokens of a list are monoTok-ordered. -/
def monoRunB : List Token → Bool
  | [] => true
  | [_] => true
  | a :: b :: r =>
    (decide (a.beg ≤ b.beg) && decide (a.en ≤ b.en)) && monoRunB (b :: r)

/-- Well-behaved engine output for one process_iter call from state st: after
shifting by the current offset the tokens are internally ordered, each token
spans forward in time, and none starts before the already-committed time. -/
def niceTsw (st : OnlineASRProcessor) (tsw : List Token) : Bool :=
  let sh := tsw.map (shiftTok st.buffer_time_offset)
  monoRunB sh &&
    sh.all (fun t =>
      decide (st.transcript_buffer.last_commited_time ≤ t.beg) &&
        decide (t.beg ≤ t.en))

/-- A trace of operations whose every process_iter input is well-behaved for
the state at which it is applied. -/
def goodTrace : OnlineASRProcessor → List ProcOp → Bool
  | _, [] => true
  | st, op :: rest =>
    (match op with
     | ProcOp.chunk _ => true
     | ProcOp.hyp tsw => niceTsw st tsw) && goodTrace (applyOp st op) rest

/-- Invariant used for claim C8: the committed history is monoTok-ordered and
all its timestamps are bounded by the hypothesis buffer's last committed
time. -/
def CommitInv (st : OnlineASRProcessor) : Prop :=
  List.Pairwise monoTok st.commited ∧
    ∀ t ∈ st.commited,
      t.beg ≤ st.transcript_buffer.last_commited_time ∧
        t.en ≤ st.transcript_buffer.last_commited_time

/-- Concrete two-iteration engine script: the first pass hears "hi", the
second pass hears "hi there"; used to exercise the session loop. -/
def trace2 : List (List ℚ × List Token) :=
  [([0], [⟨0, 1, "hi"⟩]), ([0], [⟨0, 1, "hi"⟩, ⟨1, 2, "there"⟩])]

/-- Engine script whose repeated hypothesis carries out-of-order timestamps;
both tokens get committed on the second pass. -/
def opsBad : List ProcOp :=
  [ProcOp.chunk [0], ProcOp.hyp [⟨5, 6, "a"⟩, ⟨0, 1, "b"⟩],
   ProcOp.hyp [⟨5, 6, "a"⟩, ⟨0, 1, "b"⟩]]

/-- Well-behaved engine script used to witness the amended claim C8. -/
def opsGood : List ProcOp :=
  [ProcOp.chunk [0], ProcOp.hyp [⟨0, 1, "hi"⟩],
   ProcOp.hyp [⟨0, 1, "hi"⟩, ⟨1, 2, "yo"⟩]]

lemma string_eq_of_data {s t : String} (h : s.data = t.data) : s = t := by
  cases s; cases t; exact congrArg String.mk h

lemma getLast?_mem_self {l : List Token} {g : Token}
    (h : l.getLast? = some g) : g ∈ l := by
  obtain ⟨hne, rfl⟩ := List.mem_getLast?_eq_getLast h
  exact List.getLast_mem hne

/-- Full characterisation of the flush scan loop: it consumes the longest
front-aligned run of text-equal tokens and nothing more. -/
lemma flushLoop_spec (new buf : List Token) :
    ∃ k, (flushLoop new buf).1 = new.take k ∧
      (flushLoop new buf).2 = new.drop k ∧
      List.Forall₂ (fun a b => a.text = b.text) (new.take k) (buf.take k) ∧
      (k = new.length ∨ k = buf.length ∨
        (new.getD k default).text ≠ (buf.getD k default).text) := by
  induction new generalizing buf with
  | nil => exact ⟨0, rfl, rfl, by simp, Or.inl rfl⟩
  | cons n ns ih =>
    cases buf with
    | nil => exact ⟨0, rfl, rfl, by simp, Or.inr (Or.inl rfl)⟩
    | cons b bs =>
      by_cases h : n.text = b.text
      · obtain ⟨k, h1, h2, h3, h4⟩ := ih bs
        refine ⟨k + 1, ?_, ?_, ?_, ?_⟩
        · simp [flushLoop, h, h1]
        · simp [flushLoop, h, h2]
        · rw [List.take_succ_cons, List.take_succ_cons]
          exact List.Forall₂.cons h h3
        · rcases h4 with h4 | h4 | h4
          · exact Or.inl (by simp [h4])
          · exact Or.inr (Or.inl (by simp [h4]))
          · exact Or.inr (Or.inr (by simpa using h4))
      · exact ⟨0, by simp [flushLoop, h], by simp [flushLoop, h], by simp,
          Or.inr (Or.inr (by simpa using h))⟩

/-- C1 (confirmed).  HypothesisBuffer.flush commits exactly the longest
front-aligned run of tokens of `incoming` whose texts agree position by
position with the front of `provisional`: the run is a front segment of the
new hypothesis, its texts match the provisional front pointwise, commitment
stops only at exhaustion of either sequence or at the first text mismatch; the
committed tokens are removed from both sequences, afterwards `provisional`
(buffer) holds exactly the uncommitted remainder of `incoming` (new),
`incoming` is empty, and the commit is appended to `confirmed_recent`
(commited_in_buffer). -/
theorem flush_commits_longest_agreeing_front_run (hb : HypothesisBuffer) :
    ∃ k, (hb.flush).2 = hb.new.take k ∧
      List.Forall₂ (fun a b => a.text = b.text)
        (hb.new.take k) (hb.buffer.take k) ∧
      (k = hb.new.length ∨ k = hb.buffer.length ∨
        (hb.new.getD k default).text ≠ (hb.buffer.getD k default).text) ∧
      (hb.flush).1.buffer = hb.new.drop k ∧
      (hb.flush).1.new = [] ∧
      (hb.flush).1.commited_in_buffer =
        hb.commited_in_buffer ++ (hb.flush).2 := by
  obtain ⟨k, h1, h2, h3, h4⟩ := flushLoop_spec hb.new hb.buffer
  refine ⟨k, ?_, h3, h4, ?_, rfl, ?_⟩
  · simpa [HypothesisBuffer.flush] using h1
  · simpa [HypothesisBuffer.flush] using h2
  · rfl

/-- Characterisation of the pop_commited loop: it drops exactly the longest
front run of entries ending at or before the cutoff. -/
lemma popLoop_spec (l : List Token) (time : ℚ) :
    ∃ k, k ≤ l.length ∧ popLoop l time = l.drop k ∧
      (∀ i, i < k → (l.getD i default).en ≤ time) ∧
      (k < l.length → time < (l.getD k default).en) := by
  induction l with
  | nil => exact ⟨0, le_refl 0, rfl, fun i hi => absurd hi (Nat.not_lt_zero i),
      fun h => absurd h (by simp)⟩
  | cons t ts ih =>
    by_cases h : t.en ≤ time
    · obtain ⟨k, hk, h1, h2, h3⟩ := ih
      refine ⟨k + 1, by simpa using hk, ?_, ?_, ?_⟩
      · simpa [popLoop, h] using h1
      · intro i hi
        cases i with
        | zero => simpa using h
        | succ j => simpa using h2 j (by omega)
      · intro hlt
        simpa using h3 (by simpa using hlt)
    · exact ⟨0, Nat.zero_le _, by simp [popLoop, h],
        fun i hi => absurd hi (Nat.not_lt_zero i),
        fun _ => by simpa using not_le.mp h⟩

/-- C10 (confirmed).  pop_commited removes only a contiguous front run of
confirmed_recent: the result is a suffix obtained by dropping the first k
entries, every dropped entry ends at or before the cutoff, and removal stops
at the first retained entry, which ends strictly after the cutoff — so a
late entry with small end time sitting behind it is retained. -/
theorem pop_commited_drops_only_front_run (hb : HypothesisBuffer) (time : ℚ) :
    ∃ k, k ≤ hb.commited_in_buffer.length ∧
      (hb.pop_commited time).commited_in_buffer =
        hb.commited_in_buffer.drop k ∧
      (∀ i, i < k → (hb.commited_in_buffer.getD i default).en ≤ time) ∧
      (k < hb.commited_in_buffer.length →
        time < (hb.commited_in_buffer.getD k default).en) := by
  simpa [HypothesisBuffer.pop_commited] using
    popLoop_spec hb.commited_in_buffer time

/-- C9 (confirmed).  On an empty audio window, process_iter returns
(None, None, "") without invoking the ASR engine (invocation flag false) and
with the processor state unchanged. -/
theorem process_iter_empty_window_noop (st : OnlineASRProcessor)
    (tsw : List Token) (h : st.audio_buffer = []) :
    process_iter st tsw = (st, (none, none, ""), false) := by
  simp [process_iter, h]

/-- Witness for C9 at a concrete state and engine output. -/
theorem process_iter_empty_window_noop_witness :
    mkProcessor.audio_buffer = [] ∧
      process_iter mkProcessor [⟨1, 2, "x"⟩] =
        (mkProcessor, (none, none, ""), false) :=
  ⟨rfl, process_iter_empty_window_noop mkProcessor [⟨1, 2, "x"⟩] rfl⟩

/-- C6 (corrected: counterexample).  At elapsed = 0.5 s the code requests
min(32000 * int(0.5) + 4096, 64000) = 4096 bytes, while the claimed formula
clamp(32000 * 0.5 + 4096, 4096, 64000) gives 20096. -/
theorem read_size_half_second_counterexample :
    read_size (1 / 2) = 4096 ∧ claimedReadSize (1 / 2) = 20096 ∧
      (4096 : ℚ) ≠ 20096 := by
  refine ⟨by with_unfolding_all decide, ?_, by norm_num⟩
  norm_num [claimedReadSize]

/-- C6 (amended).  The requested size is
clamp(32000 * int(max(0.1, elapsed)) + 4096, 4096, 64000), where int()
truncates the clamped elapsed time to a whole number of seconds; the result
always lies between 4096 and 64000 bytes. -/
theorem read_size_eq_truncated_clamp (d : ℚ) :
    read_size d =
        max 4096 (min (32000 * pyInt (max (1 / 10) d) + 4096) 64000) ∧
      4096 ≤ read_size d ∧ read_size d ≤ 64000 := by
  have hq : (0 : ℚ) ≤ max (1 / 10) d :=
    le_trans (by norm_num) (le_max_left _ _)
  have h0 : 0 ≤ pyInt (max (1 / 10) d) := by
    rw [pyInt, if_pos hq]
    exact Int.le_floor.mpr (by exact_mod_cast hq)
  have hlo : (4096 : ℤ) ≤ min (32000 * pyInt (max (1 / 10) d) + 4096) 64000 :=
    le_min (by linarith) (by norm_num)
  refine ⟨(max_eq_right hlo).symm, ?_, min_le_right _ _⟩
  simpa [read_size] using hlo

/-- C5 (code_bug evaluation).  In the concrete two-iteration session trace2,
the second outbound message carries the non-empty newly committed transcript
"hi", yet its timestamp field is null: the committed run starts at absolute
time 0.0 and Python's `if beg_ts` treats 0.0 as false. -/
theorem second_message_nonempty_transcript_null_timestamp :
    ((runSession mkSession trace2).2.getD 1 default).transcript = "hi" ∧
      ((runSession mkSession trace2).2.getD 1 default).transcript ≠ "" ∧
      ((runSession mkSession trace2).2.getD 1 default).timestamp = none := by
  refine ⟨by with_unfolding_all decide, by with_unfolding_all decide, by with_unfolding_all decide⟩

/-- C4 (corrected: counterexample).  Running trace2 commits exactly the text
"hi", but the terminal final message sent at teardown carries full_text
"there" — the uncommitted provisional text returned by finish() — not the
cumulative committed transcript. -/
theorem final_message_full_text_not_cumulative :
    finalMessage (runSession mkSession trace2).1 =
        some { transcript := "there", buffer := "", full_text := "there",
               timestamp := some (1, 2), final := true } ∧
      spaceJoin
          (((runSession mkSession trace2).1.online.commited).map Token.text) =
        "hi" ∧
      ("there" : String) ≠ "hi" := by
  refine ⟨by with_unfolding_all decide, by with_unfolding_all decide, by with_unfolding_all decide⟩

/-- C7 (corrected: counterexample).  With a single committed token of text
"x" starting at the offset, the code's prompt is "x" (the slice
commited[max(0,k-10):k+1] includes the found entry itself), while the claimed
construction — joining only the at most 10 entries strictly preceding the
found entry — yields the empty string. -/
theorem get_prompt_includes_found_entry_counterexample :
    get_prompt { mkProcessor with commited := [⟨0, 1, "x"⟩] } = "x" ∧
      claimedPrompt [⟨0, 1, "x"⟩] 0 = "" ∧ ("x" : String) ≠ "" := by
  refine ⟨by with_unfolding_all decide, by with_unfolding_all decide, by with_unfolding_all decide⟩

/-- C8 (corrected: counterexample).  The code never reorders or filters the
engine's timestamps: replaying the out-of-order hypothesis of opsBad commits
both tokens, leaving a committed history whose start/end times decrease. -/
theorem commited_history_not_monotone_counterexample :
    (runProc mkProcessor opsBad).commited =
        [⟨5, 6, "a"⟩, ⟨0, 1, "b"⟩] ∧
      ¬ List.Pairwise monoTok (runProc mkProcessor opsBad).commited := by
  constructor
  · with_unfolding_all decide
  · intro h
    rw [show (runProc mkProcessor opsBad).commited =
        [⟨5, 6, "a"⟩, ⟨0, 1, "b"⟩] from by with_unfolding_all decide] at h
    have := (List.pairwise_cons.mp h).1 ⟨0, 1, "b"⟩ (by simp)
    have h5 : (5 : ℚ) ≤ 0 := this.1
    norm_num at h5


lemma trim_buffer_of_empty (st : OnlineASRProcessor) (h : st.commited = []) :
    trim_buffer st = st := by
  simp [trim_buffer, h]

lemma trim_buffer_of_small (st : OnlineASRProcessor)
    (h : ¬ 0 < (st.audio_buffer.length : ℚ) / 16000 - 5) :
    trim_buffer st = st := by
  rw [trim_buffer]
  split_ifs with hc
  · rfl
  · exact if_neg h

lemma len_gt_of_duration_gt {len : ℕ} (h : (5 : ℚ) < (len : ℚ) / 16000) :
    80000 < len := by
  have h2 : (80000 : ℚ) < (len : ℚ) := by
    rw [lt_div_iff₀ (by norm_num)] at h
    linarith
  exact_mod_cast h2

lemma trim_cut_eq (len : ℕ) (h : 0 < (len : ℚ) / 16000 - 5) :
    (pyInt (((len : ℚ) / 16000 - 5) * 16000)).toNat = len - 80000 := by
  have hlen : 80000 < len := len_gt_of_duration_gt (by linarith)
  have he : ((len : ℚ) / 16000 - 5) * 16000 = (((len : ℤ) - 80000 : ℤ) : ℚ) := by
    push_cast
    field_simp
    ring
  have h0 : (0 : ℚ) ≤ (((len : ℤ) - 80000 : ℤ) : ℚ) := by
    have hz : (80000 : ℤ) ≤ (len : ℤ) := by exact_mod_cast hlen.le
    exact_mod_cast sub_nonneg.mpr hz
  rw [he, pyInt, if_pos h0, Int.floor_intCast]
  omega

lemma trim_buffer_of_trim (st : OnlineASRProcessor) (h1 : st.commited ≠ [])
    (h2 : 0 < (st.audio_buffer.length : ℚ) / 16000 - 5) :
    trim_buffer st = { st with
      audio_buffer := st.audio_buffer.drop (st.audio_buffer.length - 80000),
      buffer_time_offset :=
        st.buffer_time_offset + ((st.audio_buffer.length : ℚ) / 16000 - 5),
      transcript_buffer := st.transcript_buffer.pop_commited
        (st.buffer_time_offset + ((st.audio_buffer.length : ℚ) / 16000 - 5)) } := by
  rw [trim_buffer, if_neg h1]
  simp only [if_pos h2, trim_cut_eq st.audio_buffer.length h2]

lemma process_iter_eq (st : OnlineASRProcessor) (tsw : List Token)
    (h : st.audio_buffer.length ≠ 0) :
    process_iter st tsw =
      ((if st.buffer_trimming_sec < (st.audio_buffer.length : ℚ) / 16000 then
          trim_buffer { st with
            transcript_buffer :=
              ((st.transcript_buffer.insert tsw st.buffer_time_offset).flush).1,
            commited := st.commited ++
              ((st.transcript_buffer.insert tsw st.buffer_time_offset).flush).2 }
        else { st with
            transcript_buffer :=
              ((st.transcript_buffer.insert tsw st.buffer_time_offset).flush).1,
            commited := st.commited ++
              ((st.transcript_buffer.insert tsw st.buffer_time_offset).flush).2 }),
       to_flush ((st.transcript_buffer.insert tsw st.buffer_time_offset).flush).2,
       true) := by
  simp [process_iter, h]

lemma trim_buffer_offset_mono (st : OnlineASRProcessor) :
    st.buffer_time_offset ≤ (trim_buffer st).buffer_time_offset := by
  by_cases h1 : st.commited = []
  · rw [trim_buffer_of_empty st h1]
  · by_cases h2 : 0 < (st.audio_buffer.length : ℚ) / 16000 - 5
    · rw [trim_buffer_of_trim st h1 h2]
      show st.buffer_time_offset ≤
        st.buffer_time_offset + ((st.audio_buffer.length : ℚ) / 16000 - 5)
      linarith
    · rw [trim_buffer_of_small st h2]

lemma procStep_offset_mono {st st' : OnlineASRProcessor} (h : ProcStep st st') :
    st.buffer_time_offset ≤ st'.buffer_time_offset := by
  cases h with
  | insertChunk c => exact le_refl _
  | processStep tsw =>
    by_cases he : st.audio_buffer.length = 0
    · simp [process_iter, he]
    · rw [process_iter_eq st tsw he]
      split_ifs with hcond
      · exact trim_buffer_offset_mono _
      · exact le_refl _

lemma trim_buffer_drop (st : OnlineASRProcessor) :
    ∃ n : ℕ, (trim_buffer st).audio_buffer = st.audio_buffer.drop n ∧
      (n = 0 ∨ ((n : ℚ) / 16000 ≤ (st.audio_buffer.length : ℚ) / 16000 - 5 ∧
        st.audio_buffer.length - n = 80000)) := by
  by_cases h1 : st.commited = []
  · rw [trim_buffer_of_empty st h1]
    exact ⟨0, by simp, Or.inl rfl⟩
  · by_cases h2 : 0 < (st.audio_buffer.length : ℚ) / 16000 - 5
    · rw [trim_buffer_of_trim st h1 h2]
      have hlen : 80000 < st.audio_buffer.length :=
        len_gt_of_duration_gt (by linarith)
      refine ⟨st.audio_buffer.length - 80000, by simp only [], Or.inr ⟨?_, by omega⟩⟩
      have hc : ((st.audio_buffer.length - 80000 : ℕ) : ℚ) =
          (st.audio_buffer.length : ℚ) - 80000 := by
        push_cast [Nat.cast_sub hlen.le]
        ring
      rw [hc]
      have he : ((st.audio_buffer.length : ℚ) - 80000) / 16000 =
          (st.audio_buffer.length : ℚ) / 16000 - 5 := by ring
      exact le_of_eq he
    · rw [trim_buffer_of_small st h2]
      exact ⟨0, by simp, Or.inl rfl⟩

theorem buffer_time_offset_monotone_and_trim_bounded :
    (∀ st st' : OnlineASRProcessor, Relation.ReflTransGen ProcStep st st' →
        st.buffer_time_offset ≤ st'.buffer_time_offset) ∧
      ∀ st tsw, ∃ n : ℕ,
        (process_iter st tsw).1.audio_buffer = st.audio_buffer.drop n ∧
          (n = 0 ∨ ((n : ℚ) / 16000 ≤ (st.audio_buffer.length : ℚ) / 16000 - 5 ∧
            st.audio_buffer.length - n = 80000)) := by
  constructor
  · intro st st' h
    induction h with
    | refl => exact le_refl _
    | tail _ hstep ih => exact le_trans ih (procStep_offset_mono hstep)
  · intro st tsw
    by_cases he : st.audio_buffer.length = 0
    · exact ⟨0, by simp [process_iter, he], Or.inl rfl⟩
    · rw [process_iter_eq st tsw he]
      split_ifs with hcond
      · exact trim_buffer_drop _
      · exact ⟨0, by simp, Or.inl rfl⟩

theorem buffer_time_offset_monotone_witness :
    mkProcessor.buffer_time_offset ≤
      (process_iter (insert_audio_chunk mkProcessor [0]) []).1.buffer_time_offset :=
  buffer_time_offset_monotone_and_trim_bounded.1 mkProcessor _
    (Relation.ReflTransGen.tail
      (Relation.ReflTransGen.tail Relation.ReflTransGen.refl
        (ProcStep.insertChunk mkProcessor [0]))
      (ProcStep.processStep (insert_audio_chunk mkProcessor [0]) []))

/-- A 20-second window with nothing committed yet: the trim guard
`if not self.commited: return` leaves it untouched. -/
def stBig : OnlineASRProcessor :=
  { mkProcessor with audio_buffer := List.replicate 320000 0 }

lemma process_iter_no_commit_no_change (st : OnlineASRProcessor)
    (tsw : List Token)
    (h : st.commited ++
      ((st.transcript_buffer.insert tsw st.buffer_time_offset).flush).2 = []) :
    (process_iter st tsw).1.audio_buffer = st.audio_buffer ∧
      (process_iter st tsw).1.buffer_time_offset = st.buffer_time_offset := by
  by_cases he : st.audio_buffer.length = 0
  · simp [process_iter, he]
  · rw [process_iter_eq st tsw he]
    split_ifs with hcond
    · rw [trim_buffer_of_empty _ h]
      exact ⟨rfl, rfl⟩
    · exact ⟨rfl, rfl⟩



lemma stBig_len : stBig.audio_buffer.length = 320000 := by
  show (List.replicate 320000 (0:ℚ)).length = 320000
  rw [List.length_replicate]

theorem untrimmed_long_window_counterexample :
    15 < (stBig.audio_buffer.length : ℚ) / 16000 ∧
      (process_iter stBig []).1.audio_buffer = stBig.audio_buffer ∧
      (process_iter stBig []).1.buffer_time_offset = stBig.buffer_time_offset := by
  have hd : (15 : ℚ) < (stBig.audio_buffer.length : ℚ) / 16000 := by
    rw [stBig_len]
    norm_num
  refine ⟨hd, process_iter_no_commit_no_change stBig [] ?_⟩
  show stBig.commited ++
      ((stBig.transcript_buffer.insert [] stBig.buffer_time_offset).flush).2 = []
  rfl

set_option maxRecDepth 8000 in
theorem process_iter_trims_when_commits_present (st : OnlineASRProcessor)
    (tsw : List Token)
    (hdur : 15 < (st.audio_buffer.length : ℚ) / 16000)
    (htrim : st.buffer_trimming_sec = 15)
    (hcom : st.commited ++
      ((st.transcript_buffer.insert tsw st.buffer_time_offset).flush).2 ≠ []) :
    (process_iter st tsw).1.audio_buffer =
        st.audio_buffer.drop (st.audio_buffer.length - 80000) ∧
      (process_iter st tsw).1.buffer_time_offset =
        st.buffer_time_offset + ((st.audio_buffer.length : ℚ) / 16000 - 5) ∧
      (process_iter st tsw).1.transcript_buffer.commited_in_buffer =
        popLoop
          ((st.transcript_buffer.insert tsw st.buffer_time_offset).flush).1.commited_in_buffer
          (st.buffer_time_offset + ((st.audio_buffer.length : ℚ) / 16000 - 5)) := by
  have hne : st.audio_buffer.length ≠ 0 := by
    intro h0
    rw [h0] at hdur
    norm_num at hdur
  have hcond : st.buffer_trimming_sec < (st.audio_buffer.length : ℚ) / 16000 := by
    rw [htrim]
    exact hdur
  have h2 : 0 < (st.audio_buffer.length : ℚ) / 16000 - 5 := by linarith
  have key : (process_iter st tsw).1 =
      trim_buffer { st with
        transcript_buffer :=
          ((st.transcript_buffer.insert tsw st.buffer_time_offset).flush).1,
        commited := st.commited ++
          ((st.transcript_buffer.insert tsw st.buffer_time_offset).flush).2 } := by
    rw [process_iter_eq st tsw hne, if_pos hcond]
  rw [key, trim_buffer_of_trim
    { st with
      transcript_buffer :=
        ((st.transcript_buffer.insert tsw st.buffer_time_offset).flush).1,
      commited := st.commited ++
        ((st.transcript_buffer.insert tsw st.buffer_time_offset).flush).2 }
    hcom h2]
  refine ⟨by simp only [], by simp only [], by simp only [HypothesisBuffer.pop_commited]⟩

/-- A 20-second window whose hypothesis buffer already holds the provisional
token "hi", so that re-hearing "hi" commits it and triggers the trim. -/
def stTrimW : OnlineASRProcessor :=
  { mkProcessor with
    audio_buffer := List.replicate 320000 0,
    transcript_buffer := ⟨[], [⟨0, 1, "hi"⟩], [], 0, none⟩ }

lemma stTrimW_len : stTrimW.audio_buffer.length = 320000 := by
  show (List.replicate 320000 (0 : ℚ)).length = 320000
  rw [List.length_replicate]

theorem process_iter_trim_witness :
    (15 < (stTrimW.audio_buffer.length : ℚ) / 16000) ∧
      (stTrimW.commited ++
        ((stTrimW.transcript_buffer.insert [⟨0, 1, "hi"⟩]
          stTrimW.buffer_time_offset).flush).2 ≠ []) ∧
      ((process_iter stTrimW [⟨0, 1, "hi"⟩]).1.audio_buffer =
          stTrimW.audio_buffer.drop (stTrimW.audio_buffer.length - 80000) ∧
        (process_iter stTrimW [⟨0, 1, "hi"⟩]).1.buffer_time_offset =
          stTrimW.buffer_time_offset +
            ((stTrimW.audio_buffer.length : ℚ) / 16000 - 5) ∧
        (process_iter stTrimW [⟨0, 1, "hi"⟩]).1.transcript_buffer.commited_in_buffer =
          popLoop
            ((stTrimW.transcript_buffer.insert [⟨0, 1, "hi"⟩]
              stTrimW.buffer_time_offset).flush).1.commited_in_buffer
            (stTrimW.buffer_time_offset +
              ((stTrimW.audio_buffer.length : ℚ) / 16000 - 5))) := by
  have hdur : (15 : ℚ) < (stTrimW.audio_buffer.length : ℚ) / 16000 := by
    rw [stTrimW_len]
    norm_num
  have hcom : stTrimW.commited ++
      ((stTrimW.transcript_buffer.insert [⟨0, 1, "hi"⟩]
        stTrimW.buffer_time_offset).flush).2 ≠ [] := by
    show ([] : List Token) ++
      ((HypothesisBuffer.insert ⟨[], [⟨0, 1, "hi"⟩], [], 0, none⟩
        [⟨0, 1, "hi"⟩] 0).flush).2 ≠ []
    with_unfolding_all decide
  exact ⟨hdur, hcom,
    process_iter_trims_when_commits_present stTrimW [⟨0, 1, "hi"⟩] hdur rfl hcom⟩

lemma walkBack_le (c : List Token) (offset : ℚ) (m : ℕ) :
    walkBack c offset m ≤ m := by
  induction m with
  | zero => simp [walkBack]
  | succ k ih =>
    rw [walkBack]
    split_ifs with h
    · exact le_trans ih (Nat.le_succ k)
    · exact le_refl _

lemma walkBack_exit (c : List Token) (offset : ℚ) (m : ℕ) :
    walkBack c offset m = 0 ∨
      (c.getD (walkBack c offset m) default).beg ≤ offset := by
  induction m with
  | zero => exact Or.inl rfl
  | succ k ih =>
    rw [walkBack]
    split_ifs with h
    · exact ih
    · exact Or.inr (not_lt.mp h)

lemma walkBack_above (c : List Token) (offset : ℚ) (m : ℕ) :
    ∀ j, walkBack c offset m < j → j ≤ m → offset < (c.getD j default).beg := by
  induction m with
  | zero =>
    intro j h1 h2
    rw [walkBack] at h1
    omega
  | succ k ih =>
    intro j h1 h2
    rw [walkBack] at h1
    split_ifs at h1 with h
    · by_cases hj : j = k + 1
      · rw [hj]
        exact h
      · exact ih j h1 (by omega)
    · omega

/-- C7 (amended).  When Committed History is non-empty, the prompt computed by
_get_prompt is obtained by walking backward to the last entry whose start is
at or before buffer_time_offset (stopping at index 0 regardless), joining the
texts of that entry together with at most the 10 entries preceding it (a
slice of at most 11 entries), and keeping the final 200 characters. -/
theorem get_prompt_spec (st : OnlineASRProcessor) (h : st.commited ≠ []) :
    ∃ k, k < st.commited.length ∧
      (k = 0 ∨ (st.commited.getD k default).beg ≤ st.buffer_time_offset) ∧
      (∀ j, k < j → j < st.commited.length →
        st.buffer_time_offset < (st.commited.getD j default).beg) ∧
      k + 1 - (k - 10) ≤ 11 ∧
      get_prompt st = truncTail200 (spaceJoin
        (((st.commited.drop (k - 10)).take (k + 1 - (k - 10))).map
          Token.text)) := by
  have hlen : 0 < st.commited.length := List.length_pos.mpr h
  refine ⟨walkBack st.commited st.buffer_time_offset (st.commited.length - 1),
    ?_, walkBack_exit _ _ _, ?_, by omega, ?_⟩
  · have := walkBack_le st.commited st.buffer_time_offset
      (st.commited.length - 1)
    omega
  · intro j h1 h2
    exact walkBack_above _ _ _ j h1 (by omega)
  · rw [get_prompt, if_neg h]

/-- Committed history of three tokens around the offset, to exercise the
prompt walk. -/
def stPromptW : OnlineASRProcessor :=
  { mkProcessor with
    commited := [⟨0, 1, "a"⟩, ⟨2, 3, "b"⟩, ⟨20, 21, "c"⟩],
    buffer_time_offset := 10 }

/-- Witness for the amended C7 at a concrete committed history. -/
theorem get_prompt_spec_witness :
    stPromptW.commited ≠ [] ∧
      (∃ k, k < stPromptW.commited.length ∧
        (k = 0 ∨
          (stPromptW.commited.getD k default).beg ≤
            stPromptW.buffer_time_offset) ∧
        (∀ j, k < j → j < stPromptW.commited.length →
          stPromptW.buffer_time_offset <
            (stPromptW.commited.getD j default).beg) ∧
        k + 1 - (k - 10) ≤ 11 ∧
        get_prompt stPromptW = truncTail200 (spaceJoin
          (((stPromptW.commited.drop (k - 10)).take (k + 1 - (k - 10))).map
            Token.text))) :=
  ⟨by decide, get_prompt_spec stPromptW (by decide)⟩

lemma monoRunB_iff (l : List Token) :
    monoRunB l = true ↔ List.Pairwise monoTok l := by
  induction l with
  | nil => simp [monoRunB]
  | cons a l ih =>
    cases l with
    | nil => simp [monoRunB]
    | cons b r =>
      rw [monoRunB, Bool.and_eq_true, Bool.and_eq_true, decide_eq_true_iff,
        decide_eq_true_iff, ih]
      constructor
      · rintro ⟨⟨h1, h2⟩, hp⟩
        refine List.Pairwise.cons ?_ hp
        intro x hx
        rcases List.mem_cons.mp hx with rfl | hx'
        · exact ⟨h1, h2⟩
        · have hb := (List.pairwise_cons.mp hp).1 x hx'
          exact ⟨le_trans h1 hb.1, le_trans h2 hb.2⟩
      · intro hp
        obtain ⟨ha, hp'⟩ := List.pairwise_cons.mp hp
        exact ⟨ha b (List.mem_cons_self b r), hp'⟩

lemma pairwise_en_le_getLast :
    ∀ (l : List Token) (g : Token), List.Pairwise monoTok l →
      l.getLast? = some g → ∀ a ∈ l, a.en ≤ g.en := by
  intro l
  induction l with
  | nil => intro g _ hg; simp at hg
  | cons x xs ih =>
    intro g hp hg a ha
    cases xs with
    | nil =>
      have hx : g = x := by simpa using hg.symm
      have hax : a = x := by simpa using ha
      rw [hx, hax]
    | cons y ys =>
      rw [List.getLast?_cons_cons] at hg
      rcases List.mem_cons.mp ha with rfl | ha'
      · have hgmem : g ∈ y :: ys := getLast?_mem_self hg
        exact ((List.pairwise_cons.mp hp).1 g hgmem).2
      · exact ih g (List.pairwise_cons.mp hp).2 hg a ha'

/-- After a flush on a well-behaved new hypothesis, the commit keeps the
ordering and bounds and the last committed time only moves forward, bounding
every committed timestamp. -/
lemma flush_commit_props (hb : HypothesisBuffer)
    (hmono : List.Pairwise monoTok hb.new)
    (hbnd : ∀ t ∈ hb.new, hb.last_commited_time ≤ t.beg ∧ t.beg ≤ t.en) :
    List.Pairwise monoTok (hb.flush).2 ∧
      (∀ t ∈ (hb.flush).2, hb.last_commited_time ≤ t.beg ∧ t.beg ≤ t.en) ∧
      hb.last_commited_time ≤ (hb.flush).1.last_commited_time ∧
      (∀ t ∈ (hb.flush).2, t.en ≤ (hb.flush).1.last_commited_time) := by
  obtain ⟨k, h1, h2, h3, h4⟩ := flushLoop_spec hb.new hb.buffer
  have hcommit_eq : (hb.flush).2 = hb.new.take k := h1
  have hsub : ∀ t ∈ (hb.flush).2, t ∈ hb.new := by
    intro t ht
    rw [hcommit_eq] at ht
    exact List.mem_of_mem_take ht
  have hcp : List.Pairwise monoTok (hb.flush).2 := by
    rw [hcommit_eq]
    exact hmono.sublist (List.take_sublist k hb.new)
  have hcb : ∀ t ∈ (hb.flush).2, hb.last_commited_time ≤ t.beg ∧ t.beg ≤ t.en :=
    fun t ht => hbnd t (hsub t ht)
  have hlct : (hb.flush).1.last_commited_time =
      (match (hb.flush).2.getLast? with
       | some t => t.en
       | none => hb.last_commited_time) := rfl
  cases hgl : (hb.flush).2.getLast? with
  | none =>
    have hnil : (hb.flush).2 = [] := List.getLast?_eq_none_iff.mp hgl
    refine ⟨hcp, hcb, ?_, ?_⟩
    · rw [hlct, hgl]
    · intro t ht
      rw [hnil] at ht
      simp at ht
  | some g =>
    have hgmem : g ∈ (hb.flush).2 := getLast?_mem_self hgl
    refine ⟨hcp, hcb, ?_, ?_⟩
    · rw [hlct, hgl]
      have hg := hcb g hgmem
      linarith [hg.1, hg.2]
    · intro t ht
      rw [hlct, hgl]
      exact pairwise_en_le_getLast _ g hcp hgl t ht

lemma commitInv_after_flush (st : OnlineASRProcessor) (tsw : List Token)
    (hnice : niceTsw st tsw = true) (hinv : CommitInv st) :
    CommitInv { st with
      transcript_buffer :=
        ((st.transcript_buffer.insert tsw st.buffer_time_offset).flush).1,
      commited := st.commited ++
        ((st.transcript_buffer.insert tsw st.buffer_time_offset).flush).2 } := by
  simp only [niceTsw, Bool.and_eq_true, List.all_eq_true, decide_eq_true_iff]
    at hnice
  obtain ⟨hm, hall⟩ := hnice
  have hmono : List.Pairwise monoTok
      (st.transcript_buffer.insert tsw st.buffer_time_offset).new :=
    (monoRunB_iff _).mp hm
  have hbnd : ∀ t ∈ (st.transcript_buffer.insert tsw st.buffer_time_offset).new,
      (st.transcript_buffer.insert tsw st.buffer_time_offset).last_commited_time
          ≤ t.beg ∧ t.beg ≤ t.en := by
    intro t ht
    exact hall t ht
  obtain ⟨hcp, hcb, hlctle, hcen⟩ :=
    flush_commit_props (st.transcript_buffer.insert tsw st.buffer_time_offset)
      hmono hbnd
  constructor
  · rw [List.pairwise_append]
    refine ⟨hinv.1, hcp, ?_⟩
    intro x hx y hy
    have hxb := hinv.2 x hx
    have hyb := hcb y hy
    exact ⟨le_trans hxb.1 hyb.1, le_trans (le_trans hxb.2 hyb.1) hyb.2⟩
  · intro t ht
    rcases List.mem_append.mp ht with hmem | hmem
    · have := hinv.2 t hmem
      exact ⟨le_trans this.1 hlctle, le_trans this.2 hlctle⟩
    · have h1 := hcb t hmem
      have h2 := hcen t hmem
      exact ⟨le_trans h1.2 h2, h2⟩

lemma trim_buffer_commitInv (st : OnlineASRProcessor) (h : CommitInv st) :
    CommitInv (trim_buffer st) := by
  by_cases h1 : st.commited = []
  · rw [trim_buffer_of_empty st h1]
    exact h
  · by_cases h2 : 0 < (st.audio_buffer.length : ℚ) / 16000 - 5
    · rw [trim_buffer_of_trim st h1 h2]
      exact ⟨h.1, fun t ht => h.2 t ht⟩
    · rw [trim_buffer_of_small st h2]
      exact h

lemma process_iter_commitInv (st : OnlineASRProcessor) (tsw : List Token)
    (hnice : niceTsw st tsw = true) (hinv : CommitInv st) :
    CommitInv (process_iter st tsw).1 := by
  by_cases he : st.audio_buffer.length = 0
  · simpa [process_iter, he] using hinv
  · rw [process_iter_eq st tsw he]
    have hR := commitInv_after_flush st tsw hnice hinv
    split_ifs with hcond
    · exact trim_buffer_commitInv _ hR
    · exact hR

lemma runProc_commitInv : ∀ (ops : List ProcOp) (st : OnlineASRProcessor),
    goodTrace st ops = true → CommitInv st → CommitInv (runProc st ops) := by
  intro ops
  induction ops with
  | nil =>
    intro st _ h
    exact h
  | cons op rest ih =>
    intro st hg hinv
    cases op with
    | chunk c =>
      simp only [goodTrace, Bool.true_and] at hg
      exact ih _ hg hinv
    | hyp tsw =>
      simp only [goodTrace, Bool.and_eq_true] at hg
      exact ih _ hg.2 (process_iter_commitInv st tsw hg.1 hinv)

/-- C8 (amended).  Starting from a fresh processor, if every process_iter
input is well-behaved for the state it is applied in (niceTsw), then the
start and end timestamps of the Committed History are monotonically
non-decreasing in append order. -/
theorem commited_timestamps_monotone_of_nice_engine (ops : List ProcOp)
    (h : goodTrace mkProcessor ops = true) :
    List.Pairwise monoTok (runProc mkProcessor ops).commited :=
  (runProc_commitInv ops mkProcessor h
    ⟨List.Pairwise.nil, fun t ht => absurd ht (List.not_mem_nil t)⟩).1

/-- Witness for the amended C8 on the well-behaved script opsGood. -/
theorem commited_timestamps_monotone_witness :
    goodTrace mkProcessor opsGood = true ∧
      List.Pairwise monoTok (runProc mkProcessor opsGood).commited :=
  ⟨by with_unfolding_all decide,
   commited_timestamps_monotone_of_nice_engine opsGood
     (by with_unfolding_all decide)⟩

lemma cleanL_head {c : Char} {rest : List Char}
    (h : cleanL (c :: rest) = true) : isPySpace c = false := by
  rw [cleanL, Bool.and_eq_true, Bool.not_eq_true'] at h
  exact h.1

lemma cleanL_getLast {l : List Char} (h : cleanL l = true) :
    ∀ g, l.getLast? = some g → isPySpace g = false := by
  intro g hg
  cases l with
  | nil => simp at hg
  | cons c rest =>
    rw [cleanL, Bool.and_eq_true, Bool.not_eq_true', Bool.not_eq_true'] at h
    rw [List.getLast?_cons] at hg
    injection hg with hg'
    rw [← hg', ← List.getLastD_eq_getLast?]
    exact h.2

lemma cleanL_of {l : List Char} (hne : l ≠ [])
    (hh : ∀ c, l.head? = some c → isPySpace c = false)
    (hl : ∀ g, l.getLast? = some g → isPySpace g = false) :
    cleanL l = true := by
  cases l with
  | nil => exact absurd rfl hne
  | cons c rest =>
    rw [cleanL, Bool.and_eq_true, Bool.not_eq_true', Bool.not_eq_true']
    refine ⟨hh c rfl, ?_⟩
    apply hl
    rw [List.getLast?_cons, List.getLastD_eq_getLast?]

lemma cleanL_ne_nil {l : List Char} (h : cleanL l = true) : l ≠ [] := by
  intro he
  rw [he] at h
  simp [cleanL] at h

lemma dropWhile_eq_self_of_head (l : List Char)
    (h : ∀ c, l.head? = some c → isPySpace c = false) :
    l.dropWhile isPySpace = l := by
  cases l with
  | nil => rfl
  | cons c rest => simp [List.dropWhile_cons, h c rfl]

lemma reverse_dropWhile_eq_self (l : List Char)
    (h : ∀ g, l.getLast? = some g → isPySpace g = false) :
    l.reverse.dropWhile isPySpace = l.reverse := by
  apply dropWhile_eq_self_of_head
  intro c hc
  rw [List.head?_reverse] at hc
  exact h c hc

lemma cleanL_head' {l : List Char} (h : cleanL l = true) :
    ∀ c, l.head? = some c → isPySpace c = false := by
  intro c hc
  cases l with
  | nil => simp at hc
  | cons x rest =>
    have : x = c := by simpa using hc
    rw [← this]
    exact cleanL_head h

lemma stripData_eq_self {l : List Char} (h : cleanL l = true) :
    stripData l = l := by
  rw [stripData, dropWhile_eq_self_of_head l (cleanL_head' h),
    reverse_dropWhile_eq_self l (cleanL_getLast h), List.reverse_reverse]

lemma stripData_space_cons {t : List Char} (ht : cleanL t = true) :
    stripData (' ' :: t) = t := by
  have h1 : (' ' :: t).dropWhile isPySpace = t.dropWhile isPySpace := by
    simp [List.dropWhile_cons, isPySpace]
  rw [stripData, h1, dropWhile_eq_self_of_head t (cleanL_head' ht),
    reverse_dropWhile_eq_self t (cleanL_getLast ht), List.reverse_reverse]

lemma getLast?_sep_append {f t : List Char} (ht : t ≠ []) :
    (f ++ ' ' :: t).getLast? = t.getLast? := by
  rw [List.getLast?_append_of_ne_nil f (List.cons_ne_nil ' ' t)]
  cases t with
  | nil => exact absurd rfl ht
  | cons c rest => rw [List.getLast?_cons_cons]

lemma stripData_clean_append {f t : List Char} (hf : cleanL f = true)
    (ht : cleanL t = true) : stripData (f ++ ' ' :: t) = f ++ ' ' :: t := by
  have hh : ∀ c, (f ++ ' ' :: t).head? = some c → isPySpace c = false := by
    intro c hc
    cases f with
    | nil => exact absurd hf (by simp [cleanL])
    | cons x rest =>
      have : x = c := by simpa using hc
      rw [← this]
      exact cleanL_head hf
  have hl : ∀ g, (f ++ ' ' :: t).getLast? = some g → isPySpace g = false := by
    intro g hg
    rw [getLast?_sep_append (cleanL_ne_nil ht)] at hg
    exact cleanL_getLast ht g hg
  rw [stripData, dropWhile_eq_self_of_head _ hh,
    reverse_dropWhile_eq_self _ hl, List.reverse_reverse]

lemma cleanL_sep_append {f t : List Char} (hf : cleanL f = true)
    (ht : cleanL t = true) : cleanL (f ++ ' ' :: t) = true := by
  apply cleanL_of (by simp)
  · intro c hc
    cases f with
    | nil => exact absurd hf (by simp [cleanL])
    | cons x rest =>
      have : x = c := by simpa using hc
      rw [← this]
      exact cleanL_head hf
  · intro g hg
    rw [getLast?_sep_append (cleanL_ne_nil ht)] at hg
    exact cleanL_getLast ht g hg

lemma data_sep_append (f t : String) :
    (f ++ " " ++ t).data = f.data ++ ' ' :: t.data := by
  rw [String.data_append, String.data_append, List.append_assoc]
  rfl

lemma pyStrip_sep_append_of_clean {f t : String} (hf : cleanB f = true)
    (ht : cleanB t = true) : pyStrip (f ++ " " ++ t) = f ++ " " ++ t := by
  apply string_eq_of_data
  show stripData (f ++ " " ++ t).data = (f ++ " " ++ t).data
  rw [data_sep_append]
  exact stripData_clean_append hf ht

lemma pyStrip_sep_append_of_empty {t : String} (ht : cleanB t = true) :
    pyStrip ("" ++ " " ++ t) = t := by
  apply string_eq_of_data
  show stripData ("" ++ " " ++ t).data = t.data
  rw [data_sep_append]
  exact stripData_space_cons ht

lemma cleanB_ne_empty {s : String} (h : cleanB s = true) : s ≠ "" := by
  intro he
  rw [he] at h
  simp [cleanB, cleanL] at h

lemma cleanB_sep_append {f t : String} (hf : cleanB f = true)
    (ht : cleanB t = true) : cleanB (f ++ " " ++ t) = true := by
  show cleanL (f ++ " " ++ t).data = true
  rw [data_sep_append]
  exact cleanL_sep_append hf ht

lemma cleanB_spaceJoin : ∀ (l : List String), (∀ s ∈ l, cleanB s = true) →
    l ≠ [] → cleanB (spaceJoin l) = true := by
  intro l
  induction l with
  | nil => intro _ h; exact absurd rfl h
  | cons s l ih =>
    intro hall _
    cases l with
    | nil => exact hall s (List.mem_cons_self s [])
    | cons s2 r =>
      rw [spaceJoin]
      exact cleanB_sep_append (hall s (List.mem_cons_self _ _))
        (ih (fun x hx => hall x (List.mem_cons_of_mem s hx)) (by simp))

lemma spaceJoin_append : ∀ (a b : List String), a ≠ [] → b ≠ [] →
    spaceJoin (a ++ b) = spaceJoin a ++ " " ++ spaceJoin b := by
  intro a
  induction a with
  | nil => intro b h _; exact absurd rfl h
  | cons x a' ih =>
    intro b _ hb
    cases a' with
    | nil =>
      cases b with
      | nil => exact absurd rfl hb
      | cons y r => rfl
    | cons z a'' =>
      show x ++ " " ++ spaceJoin ((z :: a'') ++ b) =
        (x ++ " " ++ spaceJoin (z :: a'')) ++ " " ++ spaceJoin b
      rw [ih b (by simp) hb, ← String.append_assoc, ← String.append_assoc]

lemma to_flush_text (l : List Token) :
    (to_flush l).2.2 = spaceJoin (l.map Token.text) := by
  cases l <;> rfl

lemma trim_buffer_commited (st : OnlineASRProcessor) :
    (trim_buffer st).commited = st.commited := by
  by_cases h1 : st.commited = []
  · rw [trim_buffer_of_empty st h1]
  · by_cases h2 : 0 < (st.audio_buffer.length : ℚ) / 16000 - 5
    · rw [trim_buffer_of_trim st h1 h2]
    · rw [trim_buffer_of_small st h2]

/-- One process_iter call extends the committed history by the flush output,
whose joined text is also the reported transcript, and every committed token's
text originates from the engine's token list. -/
lemma process_iter_commited_eq (st : OnlineASRProcessor) (tsw : List Token) :
    ∃ o : List Token,
      (process_iter st tsw).1.commited = st.commited ++ o ∧
      (process_iter st tsw).2.1.2.2 = spaceJoin (o.map Token.text) ∧
      ∀ t ∈ o, ∃ t0 ∈ tsw, t.text = t0.text := by
  by_cases he : st.audio_buffer.length = 0
  · exact ⟨[], by simp [process_iter, he],
      by simp [process_iter, he, spaceJoin], by simp⟩
  · rw [process_iter_eq st tsw he]
    refine ⟨((st.transcript_buffer.insert tsw st.buffer_time_offset).flush).2,
      ?_, to_flush_text _, ?_⟩
    · split_ifs with hcond
      · rw [trim_buffer_commited]
      · rfl
    · intro t ht
      obtain ⟨k, h1, _, _, _⟩ := flushLoop_spec
        (st.transcript_buffer.insert tsw st.buffer_time_offset).new
        (st.transcript_buffer.insert tsw st.buffer_time_offset).buffer
      have hc : ((st.transcript_buffer.insert tsw st.buffer_time_offset).flush).2
          = (tsw.map (shiftTok st.buffer_time_offset)).take k := h1
      rw [hc] at ht
      have ht2 := List.mem_of_mem_take ht
      obtain ⟨t0, ht0, he0⟩ := List.mem_map.mp ht2
      exact ⟨t0, ht0, by rw [← he0]; rfl⟩

/-- Invariant of the session loop: the accumulated full transcription is the
space-join of all committed token texts, and those texts are clean. -/
def SessionInv (s : LiveSession) : Prop :=
  s.full_transcription = spaceJoin (s.online.commited.map Token.text) ∧
    ∀ t ∈ s.online.commited, cleanB t.text = true

lemma sessionStep_fst_online (s : LiveSession) (c : List ℚ) (tsw : List Token) :
    (sessionStep s c tsw).1.online =
      (process_iter (insert_audio_chunk s.online c) tsw).1 := rfl

lemma sessionStep_fst_full (s : LiveSession) (c : List ℚ) (tsw : List Token) :
    (sessionStep s c tsw).1.full_transcription =
      (if (process_iter (insert_audio_chunk s.online c) tsw).2.1.2.2 = ""
       then s.full_transcription
       else pyStrip (s.full_transcription ++ " " ++
         (process_iter (insert_audio_chunk s.online c) tsw).2.1.2.2)) := rfl

lemma sessionStep_msg_full (s : LiveSession) (c : List ℚ) (tsw : List Token) :
    (sessionStep s c tsw).2.full_text =
      (sessionStep s c tsw).1.full_transcription := rfl

lemma sessionStep_inv (s : LiveSession) (c : List ℚ) (tsw : List Token)
    (hclean : ∀ t ∈ tsw, cleanB t.text = true) (hinv : SessionInv s) :
    SessionInv (sessionStep s c tsw).1 := by
  obtain ⟨o, ho1, ho2, ho3⟩ :=
    process_iter_commited_eq (insert_audio_chunk s.online c) tsw
  have hcommited :
      (sessionStep s c tsw).1.online.commited = s.online.commited ++ o := by
    rw [sessionStep_fst_online, ho1]
    rfl
  have hoclean : ∀ t ∈ o, cleanB t.text = true := by
    intro t ht
    obtain ⟨t0, ht0, he0⟩ := ho3 t ht
    rw [he0]
    exact hclean t0 ht0
  have hallclean : ∀ t ∈ (sessionStep s c tsw).1.online.commited,
      cleanB t.text = true := by
    rw [hcommited]
    intro t ht
    rcases List.mem_append.mp ht with h | h
    · exact hinv.2 t h
    · exact hoclean t h
  refine ⟨?_, hallclean⟩
  rw [sessionStep_fst_full, hcommited]
  cases ho : o with
  | nil =>
    rw [ho] at ho2
    have htr : (process_iter (insert_audio_chunk s.online c) tsw).2.1.2.2 = "" := by
      rw [ho2]
      rfl
    rw [if_pos htr, List.append_nil]
    exact hinv.1
  | cons t o' =>
    rw [← ho]
    have hone : o ≠ [] := by rw [ho]; simp
    have homap : o.map Token.text ≠ [] := by
      intro hx
      exact hone (List.map_eq_nil_iff.mp hx)
    have htrclean : cleanB (spaceJoin (o.map Token.text)) = true := by
      apply cleanB_spaceJoin
      · intro x hx
        obtain ⟨t0, ht0, he0⟩ := List.mem_map.mp hx
        rw [← he0]
        exact hoclean t0 ht0
      · exact homap
    have htr : (process_iter (insert_audio_chunk s.online c) tsw).2.1.2.2 ≠ "" := by
      rw [ho2]
      exact cleanB_ne_empty htrclean
    rw [if_neg htr, ho2, List.map_append]
    by_cases hc0 : s.online.commited = []
    · have hfull : s.full_transcription = "" := by
        rw [hinv.1, hc0]
        rfl
      rw [hfull, hc0, pyStrip_sep_append_of_empty htrclean]
      rfl
    · have hcmap : s.online.commited.map Token.text ≠ [] := by
        intro hx
        exact hc0 (List.map_eq_nil_iff.mp hx)
      have hfullclean : cleanB s.full_transcription = true := by
        rw [hinv.1]
        exact cleanB_spaceJoin _ (fun x hx => by
          obtain ⟨t0, ht0, he0⟩ := List.mem_map.mp hx
          rw [← he0]
          exact hinv.2 t0 ht0) hcmap
      rw [pyStrip_sep_append_of_clean hfullclean htrclean,
        spaceJoin_append _ _ hcmap homap, hinv.1]

lemma runSession_nil (s : LiveSession) : runSession s [] = (s, []) := rfl

lemma runSession_cons (s : LiveSession) (c : List ℚ) (t : List Token)
    (l : List (List ℚ × List Token)) :
    runSession s ((c, t) :: l) =
      ((runSession (sessionStep s c t).1 l).1,
       (sessionStep s c t).2 :: (runSession (sessionStep s c t).1 l).2) := rfl

lemma runSession_msgs_spec :
    ∀ (trace : List (List ℚ × List Token)) (s : LiveSession),
      (∀ p ∈ trace, ∀ t ∈ p.2, cleanB t.text = true) → SessionInv s →
      SessionInv (runSession s trace).1 ∧
        ∀ i (hi : i < ((runSession s trace).2).length),
          (((runSession s trace).2).get ⟨i, hi⟩).full_text =
            spaceJoin
              (((runSession s (trace.take (i + 1))).1.online.commited).map
                Token.text) := by
  intro trace
  induction trace with
  | nil =>
    intro s _ hinv
    exact ⟨hinv, fun i hi => absurd hi (by simp [runSession_nil])⟩
  | cons p rest ih =>
    intro s hclean hinv
    obtain ⟨c, t⟩ := p
    have hstep : SessionInv (sessionStep s c t).1 :=
      sessionStep_inv s c t
        (hclean (c, t) (List.mem_cons_self _ _)) hinv
    have ih' := ih (sessionStep s c t).1
      (fun q hq => hclean q (List.mem_cons_of_mem _ hq)) hstep
    rw [runSession_cons]
    refine ⟨ih'.1, ?_⟩
    intro i hi
    cases i with
    | zero =>
      show (sessionStep s c t).2.full_text = _
      rw [sessionStep_msg_full]
      rw [List.take_succ_cons, List.take_zero, runSession_cons, runSession_nil]
      exact hstep.1
    | succ j =>
      have hj : j < ((runSession (sessionStep s c t).1 rest).2).length := by
        simpa using hi
      have := ih'.2 j hj
      rw [List.take_succ_cons, runSession_cons]
      exact this

/-- C4 (amended).  Under clean engine token texts, every per-iteration
outbound message's full_text equals the cumulative committed transcript (the
space-join of the committed token texts up to that iteration), while the
terminal final message's full_text is exactly the finish() text — the
uncommitted provisional content — rather than the cumulative transcript. -/
theorem session_full_text_spec (trace : List (List ℚ × List Token))
    (hclean : ∀ p ∈ trace, ∀ t ∈ p.2, cleanB t.text = true) :
    (∀ i (hi : i < ((runSession mkSession trace).2).length),
        (((runSession mkSession trace).2).get ⟨i, hi⟩).full_text =
          spaceJoin
            (((runSession mkSession (trace.take (i + 1))).1.online.commited).map
              Token.text)) ∧
      ∀ m, finalMessage (runSession mkSession trace).1 = some m →
        m.full_text = (finish (runSession mkSession trace).1.online).2.2 := by
  have hinit : SessionInv mkSession := ⟨rfl, fun t ht => absurd ht (by simp [mkSession, mkProcessor])⟩
  refine ⟨(runSession_msgs_spec trace mkSession hclean hinit).2, ?_⟩
  intro m hm
  rw [finalMessage] at hm
  by_cases hf : (finish (runSession mkSession trace).1.online).2.2 = ""
  · rw [if_pos hf] at hm
    exact absurd hm (by simp)
  · rw [if_neg hf] at hm
    injection hm with hm'
    rw [← hm']

/-- Witness for the amended C4: on trace2, the second per-iteration message's
full_text is the space-join of the committed token texts after two
iterations. -/
theorem session_full_text_spec_witness :
    (∀ p ∈ trace2, ∀ t ∈ p.2, cleanB t.text = true) ∧
      (((runSession mkSession trace2).2).get
          ⟨1, by with_unfolding_all decide⟩).full_text =
        spaceJoin
          (((runSession mkSession (trace2.take 2)).1.online.commited).map
            Token.text) :=
  ⟨by with_unfolding_all decide,
   (session_full_text_spec trace2 (by with_unfolding_all decide)).1 1
     (by with_unfolding_all decide)⟩
